import Mathlib

/-!
Verification development for the csgocfg repository: a line-grammar parser for
game-style configuration files and an identity-based merge ("patch") engine.

Strings are modelled as lists of characters (`Str`).  Rust byte-level slicing
is reflected where it can fail: the places where the source indexes by byte
offset carry an explicit `panicked` outcome that fires exactly when the
offset would fall outside the string or inside a multi-byte character
(a character's UTF-8 width is 1 iff its code point is at most 0x7F).
Character-class predicates (`is_alphabetic`, `is_alphanumeric`,
`is_whitespace`) are modelled exactly on the ASCII range, over which all
quantified theorems below range; Rust additionally accepts further Unicode
code points in these classes, which none of the statements below exercise.
-/

/-- Character strings, modelled as lists of Unicode scalar values. -/
abbrev Str := List Char

/-- Code point of a character as a natural number. -/
def charNat (c : Char) : Nat := c.toNat

/-- True iff the character's UTF-8 encoding is a single byte (code point ≤ 0x7F).
Slicing a Rust `&str` one byte past such a character stays on a boundary;
after a wider character it panics. -/
def charSize1 (c : Char) : Bool := charNat c ≤ 127

/-- Model of Rust `char::is_alphabetic` on the ASCII range (A-Z, a-z). -/
def isAlphaRust (c : Char) : Bool :=
  (65 ≤ charNat c && charNat c ≤ 90) || (97 ≤ charNat c && charNat c ≤ 122)

/-- Model of Rust `char::is_ascii_digit` / the digit part of `is_alphanumeric` (0-9). -/
def isDigitRust (c : Char) : Bool := 48 ≤ charNat c && charNat c ≤ 57

/-- Characters accepted at the start of an identifier in `parser.rs::identifier`:
alphabetic, `_` (95) or `@` (64). -/
def isIdentStartChar (c : Char) : Bool :=
  isAlphaRust c || charNat c == 95 || charNat c == 64

/-- Characters accepted inside an identifier in `parser.rs::identifier`:
alphanumeric, `_` or `@`. -/
def isIdentChar (c : Char) : Bool :=
  isAlphaRust c || isDigitRust c || charNat c == 95 || charNat c == 64

/-- Valid identifier per the grammar of `parser.rs::identifier`: nonempty,
starts with a letter, `_` or `@`, and every character is a letter, digit,
`_` or `@`. -/
def isValidIdent : Str → Bool
  | [] => false
  | c :: rest => isIdentStartChar c && (c :: rest).all isIdentChar

/-- True iff the string contains a double-quote character. -/
def has_quote : Str → Bool
  | [] => false
  | c :: rest => c == '"' || has_quote rest

/-- True iff the string contains two consecutive `/` characters. -/
def has_comment_marker : Str → Bool
  | '/' :: '/' :: _ => true
  | _ :: rest => has_comment_marker rest
  | [] => false

/-- UTF-8 width of the last character is one byte (vacuously true on `[]`,
which the callers never pass). -/
def lastSize1 : Str → Bool
  | [] => true
  | [c] => charSize1 c
  | _ :: c :: rest => lastSize1 (c :: rest)

/-- Byte-lexicographic comparison of two strings, as Rust's `Ord for String`
(UTF-8 byte order coincides with code-point order). -/
def str_cmp : Str → Str → Ordering
  | [], [] => .eq
  | [], _ :: _ => .lt
  | _ :: _, [] => .gt
  | a :: xs, b :: ys =>
    if charNat a < charNat b then .lt
    else if charNat b < charNat a then .gt
    else str_cmp xs ys

/-- Byte-lexicographic `≤` on strings. -/
def str_le (a b : Str) : Bool :=
  match str_cmp a b with
  | .gt => false
  | _ => true

/-- Statement data model of `config.rs::ConfigItem`: a console command, a key
bind (`Bind key binding`), or a key/value setting (`Cvar key value`). -/
inductive ConfigItem where
  | Command : Str → ConfigItem
  | Bind : Str → Str → ConfigItem
  | Cvar : Str → Str → ConfigItem
deriving DecidableEq

/-- Identity-based equality of `config.rs`'s `impl PartialEq for ConfigItem`:
same variant and equal first field; the `Bind` binding and `Cvar` value are
ignored. -/
def ConfigItem.eq : ConfigItem → ConfigItem → Bool
  | .Command cmd, .Command cmd2 => cmd == cmd2
  | .Bind key _, .Bind key2 _ => key == key2
  | .Cvar cvar _, .Cvar cvar2 _ => cvar == cvar2
  | _, _ => false

/-- Total order of `config.rs`'s `impl Ord for ConfigItem`: within a variant,
byte-lexicographic on the identity string; across variants
`Command < Bind < Cvar`. -/
def ConfigItem.cmp : ConfigItem → ConfigItem → Ordering
  | .Command cmd, .Command cmd2 => str_cmp cmd cmd2
  | .Bind key _, .Bind key2 _ => str_cmp key key2
  | .Cvar cvar _, .Cvar cvar2 _ => str_cmp cvar cvar2
  | .Command _, _ => .lt
  | .Bind _ _, .Command _ => .gt
  | .Bind _ _, .Cvar _ _ => .lt
  | .Cvar _ _, _ => .gt

/-- Data fed to the hasher by `config.rs`'s `impl Hash for ConfigItem`, in
order: every `String` field of the variant is hashed, including the
non-identity payload of `Bind` and `Cvar`.  Two items receive the same hash
value under every hasher iff they feed equal field sequences; a hasher that
records its input distinguishes any two different sequences. -/
def ConfigItem.hash_fields : ConfigItem → List Str
  | .Command cmd => [cmd]
  | .Bind key bnd => [key, bnd]
  | .Cvar cvar val => [cvar, val]

/-- Canonical output line of `config.rs::ConfigItem::write_string`, without
the terminating newline that `writeln!` appends (see `write_string`). -/
def ConfigItem.write_line : ConfigItem → Str
  | .Command cmd => cmd
  | .Bind key bnd =>
    "bind".toList ++ (' ' :: ('"' :: (key ++ ('"' :: (' ' :: ('"' :: (bnd ++ ['"'])))))))
  | .Cvar cvar val => cvar ++ (' ' :: ('"' :: (val ++ ['"'])))

/-- Full text written by `config.rs::ConfigItem::write_string`: the canonical
line followed by the newline from `writeln!`. -/
def ConfigItem.write_string (item : ConfigItem) : Str :=
  item.write_line ++ ['\n']

/-- Result of a single combinator of `parser.rs` (`ParseResult<'a, Output>`):
success carries the remaining input and the output, failure carries the input
slice, and `panicked` marks a byte-slice outside a character boundary. -/
inductive PR (α : Type) where
  | ok : Str → α → PR α
  | err : Str → PR α
  | panicked : PR α
deriving DecidableEq

/-- Model of `parser.rs::ignore_whitespace`: repeatedly consume a single
ASCII space (`match_literal(" ")`); tabs are not skipped. -/
def ignore_whitespace (s : Str) : Str := s.dropWhile (fun c => c == ' ')

/-- True iff the string begins with the two characters `//`. -/
def startsComment : Str → Bool
  | a :: b :: _ => a == '/' && b == '/'
  | _ => false

/-- Model of `parser.rs::is_empty_or_comment`: empty input or input that
begins with the comment marker `//`. -/
def is_empty_or_comment (s : Str) : Bool := s.isEmpty || startsComment s

/-- Model of `parser.rs::identifier`.  The source finds the byte index of the
last consecutive identifier character starting from the front and slices the
input at `index + 1`; that offset is a character boundary exactly when the
last matched character is one UTF-8 byte wide, otherwise the slice panics. -/
def identifier (input : Str) : PR Str :=
  match input with
  | [] => .err []
  | c :: rest =>
    if isIdentStartChar c then
      let tk := (c :: rest).takeWhile isIdentChar
      if lastSize1 tk then .ok ((c :: rest).drop tk.length) tk
      else .panicked
    else .err (c :: rest)

/-- Model of `parser.rs::string_literal`: an opening `"`, everything up to the
next `"` (found with `str::find`, so a `//` inside the quotes is ordinary
content), and the closing `"`.  Failure carries the slice the failing
sub-parser saw. -/
def string_literal (input : Str) : PR Str :=
  match input with
  | [] => .err []
  | c :: rest =>
    if c = '"' then
      let contents := rest.takeWhile (fun x => x != '"')
      match rest.drop contents.length with
      | '"' :: rest2 => .ok rest2 contents
      | _ => .err rest
    else .err (c :: rest)

/-- Parse errors produced by `parser.rs` (the four `anyhow!` sites). -/
inductive ParseError where
  | invalidIdentifier : Str → ParseError
  | invalidStringLiteral : Str → ParseError
  | expectedBindCommand : Str → Str → ParseError
  | invalidEndOfLine : Str → ParseError
deriving DecidableEq

/-- Error taxonomy of spec §7. -/
inductive ErrKind where
  | InvalidIdentifier
  | InvalidStringLiteral
  | UnexpectedEndOfLine
deriving DecidableEq

/-- Classification of the concrete `parser.rs` errors into the spec §7
taxonomy; per §7 a three-token line whose command is not `bind` falls under
`UnexpectedEndOfLine`. -/
def ParseError.kind : ParseError → ErrKind
  | .invalidIdentifier _ => .InvalidIdentifier
  | .invalidStringLiteral _ => .InvalidStringLiteral
  | .expectedBindCommand _ _ => .UnexpectedEndOfLine
  | .invalidEndOfLine _ => .UnexpectedEndOfLine

/-- Outcome of `parser.rs::parse_line`: a statement, no statement
(blank/comment line), a parse error, or a panic. -/
inductive LineResult where
  | ok : Option ConfigItem → LineResult
  | err : ParseError → LineResult
  | panicked : LineResult
deriving DecidableEq

/-- Model of `State<BindParser>::next`: reject a non-`bind` command, then
parse the second quoted argument; trailing non-comment content is an error. -/
def bind_parser_next (bind_command key input : Str) : LineResult :=
  if bind_command ≠ "bind".toList then .err (.expectedBindCommand bind_command input)
  else
    match string_literal input with
    | .err i => .err (.invalidStringLiteral i)
    | .panicked => .panicked
    | .ok rest val =>
      let input2 := ignore_whitespace rest
      if is_empty_or_comment input2 then .ok (some (.Bind key val))
      else .err (.invalidEndOfLine input2)

/-- Model of `State<CvarParser>::next`: parse the first quoted argument; if
the line ends (or a comment follows) this is a `Cvar`, otherwise continue as
a bind. -/
def cvar_parser_next (cvar input : Str) : LineResult :=
  match string_literal input with
  | .err i => .err (.invalidStringLiteral i)
  | .panicked => .panicked
  | .ok rest val =>
    let input2 := ignore_whitespace rest
    if is_empty_or_comment input2 then .ok (some (.Cvar cvar val))
    else bind_parser_next cvar val input2

/-- Model of `State<IdentParser>::next`: parse the command identifier; if the
line ends (or a comment follows) this is a bare `Command`, otherwise continue
with arguments. -/
def ident_parser_next (input : Str) : LineResult :=
  match identifier input with
  | .err i => .err (.invalidIdentifier i)
  | .panicked => .panicked
  | .ok rest ident =>
    let input2 := ignore_whitespace rest
    if is_empty_or_comment input2 then .ok (some (.Command ident))
    else cvar_parser_next ident input2

/-- Model of `parser.rs::parse_line` (`State::<IdentParser>::init` followed by
the chained `next` steps): skip leading spaces, return no statement for a
blank or comment line, otherwise run the identifier stage. -/
def parse_line (line : Str) : LineResult :=
  let input := ignore_whitespace line
  if is_empty_or_comment input then .ok none
  else ident_parser_next input

namespace CfgLib

/-- Statement type local to `lib.rs` (its own `enum ConfigItem<'a>`, distinct
from the one in `config.rs`): a bare command, a command with two arguments, a
key/value pair (arguments kept verbatim, quotes included), or an empty line. -/
inductive ConfigItem where
  | Cmd : Str → ConfigItem
  | CmdWithArgs : Str → Str → Str → ConfigItem
  | Cvar : Str → Str → ConfigItem
  | Empty : ConfigItem
deriving DecidableEq

/-- Outcome of the fallible `lib.rs` functions: a value, an `anyhow` error
carrying the offending (trimmed) line, or a panic from out-of-bounds /
non-boundary byte indexing. -/
inductive Res (α : Type) where
  | ok : α → Res α
  | err : Str → Res α
  | panicked : Res α
deriving DecidableEq

/-- Model of Rust `char::is_whitespace` on the ASCII range (space, \t, \n,
\v, \f, \r). -/
def isRustWhitespace (c : Char) : Bool :=
  charNat c == 32 || (9 ≤ charNat c && charNat c ≤ 13)

/-- Model of Rust `str::trim`: remove leading and trailing whitespace. -/
def trim (s : Str) : Str :=
  ((s.dropWhile isRustWhitespace).reverse.dropWhile isRustWhitespace).reverse

/-- Splitting loop of `lib.rs::parse_config_line`.  Outside quotes a space
closes the current part, a `"` toggles quote mode, and a `/` peeks at the
next byte with `&line[index + 1 .. index + 2]`: that slice panics (`none`)
when the `/` is the last character or the next character is wider than one
byte; if the next character is `/` the loop breaks and the final `push`
takes everything from the last part boundary to the end of the line,
comment included. -/
def split_parts : Str → Bool → Str → List Str → Option (List Str)
  | [], _, acc, parts => some (parts ++ [acc])
  | c :: rest, q, acc, parts =>
    if !q && c == '"' then split_parts rest true (acc ++ [c]) parts
    else if !q && c == ' ' then split_parts rest false [] (parts ++ [acc])
    else if !q && c == '/' then
      match rest with
      | [] => none
      | c2 :: _ =>
        if !(charSize1 c2) then none
        else if c2 == '/' then some (parts ++ [acc ++ (c :: rest)])
        else split_parts rest q (acc ++ [c]) parts
    else if q && c == '"' then split_parts rest false (acc ++ [c]) parts
    else split_parts rest q (acc ++ [c]) parts

/-- Model of `lib.rs::parse_config_line`: trim the line, return `Empty` for a
blank line, split into parts (quote-aware, with the `//` peek), and classify
by the number of parts; any other count is `bail!("invalid config line: …")`,
whose error carries the trimmed line. -/
def parse_config_line (line : Str) : Res ConfigItem :=
  let line2 := trim line
  if line2.isEmpty then .ok .Empty
  else
    match split_parts line2 false [] [] with
    | none => .panicked
    | some parts =>
      match parts with
      | [cmd] => .ok (.Cmd cmd)
      | [cvar, val] => .ok (.Cvar cvar val)
      | [cmd, arg1, arg2] => .ok (.CmdWithArgs cmd arg1 arg2)
      | _ => .err line2

/-- Lookup key used by `lib.rs::apply_patch` for each statement: the first
string of the variant (the command, the literal command word of a
three-token line, or the cvar name); `Empty` items are not inserted. -/
def key_of : ConfigItem → Option Str
  | .Cmd cmd => some cmd
  | .CmdWithArgs cmd _ _ => some cmd
  | .Cvar cvar _ => some cvar
  | .Empty => none

/-- Model of `HashMap::insert`: replace the value of an existing key,
otherwise add a new entry. -/
def insert_item : List (Str × ConfigItem) → Str → ConfigItem → List (Str × ConfigItem)
  | [], k, v => [(k, v)]
  | (k2, v2) :: rest, k, v =>
    if k2 == k then (k2, v) :: rest else (k2, v2) :: insert_item rest k v

/-- Model of `HashMap::remove`: the removed value (if any) and the remaining
entries. -/
def remove_item : List (Str × ConfigItem) → Str → Option ConfigItem × List (Str × ConfigItem)
  | [], _ => (none, [])
  | (k2, v2) :: rest, k =>
    if k2 == k then (some v2, rest)
    else
      let (r, m) := remove_item rest k
      (r, (k2, v2) :: m)

/-- First loop of `lib.rs::apply_patch`: parse every patch line and insert the
statement into the lookup keyed by `key_of`; a parse error or panic aborts. -/
def build_lookup : List Str → List (Str × ConfigItem) → Res (List (Str × ConfigItem))
  | [], m => .ok m
  | l :: ls, m =>
    match parse_config_line l with
    | .panicked => .panicked
    | .err e => .err e
    | .ok item =>
      match key_of item with
      | none => build_lookup ls m
      | some k => build_lookup ls (insert_item m k item)

/-- Second loop of `lib.rs::apply_patch`: parse every target line in order;
a statement whose key is found in the lookup is replaced by the patch
statement, which is removed from the lookup; otherwise the target statement
is kept; `Empty` lines are emitted as-is. -/
def process_target :
    List Str → List (Str × ConfigItem) → List ConfigItem →
    Res (List ConfigItem × List (Str × ConfigItem))
  | [], m, out => .ok (out, m)
  | l :: ls, m, out =>
    match parse_config_line l with
    | .panicked => .panicked
    | .err e => .err e
    | .ok item =>
      match key_of item with
      | none => process_target ls m (out ++ [item])
      | some k =>
        match remove_item m k with
        | (some v, m2) => process_target ls m2 (out ++ [v])
        | (none, m2) => process_target ls m2 (out ++ [item])

/-- Pure core of `lib.rs::apply_patch` on the two line sequences: the emitted
statement sequence is the processed target lines followed by the leftover
patch entries.  The real `HashMap` iterates leftovers in an unspecified
order; the model keeps insertion order, and no theorem below depends on the
relative order of two or more leftovers.  The target file is rewritten only
after both loops succeed, so an error or panic produces no output. -/
def apply_patch (patch_lines target_lines : List Str) : Res (List ConfigItem) :=
  match build_lookup patch_lines [] with
  | .panicked => .panicked
  | .err e => .err e
  | .ok m =>
    match process_target target_lines m [] with
    | .panicked => .panicked
    | .err e => .err e
    | .ok (out, leftovers) => .ok (out ++ leftovers.map Prod.snd)

/-- All lines parsed by `parse_config_line`, provided every one succeeds
(no error and no panic). -/
def parse_all_lines : List Str → Option (List ConfigItem)
  | [] => some []
  | l :: ls =>
    match parse_config_line l with
    | .ok item => (parse_all_lines ls).map (fun its => item :: its)
    | _ => none

end CfgLib

/-- Rank of the three statement variants in the output order the spec
prescribes (spec §3): `Command` before `KeyBind` before `Setting`; an empty
line is no statement and is ranked last.  This definition follows the spec's
words, to be compared with what `lib.rs::apply_patch` emits. -/
def spec_rank : CfgLib.ConfigItem → Nat
  | .Cmd _ => 0
  | .CmdWithArgs _ _ _ => 1
  | .Cvar _ _ => 2
  | .Empty => 3

/-- Identity string of a `lib.rs` statement per the spec's identity notion
(spec §3): the command name, the bound key of a bind, or the setting key.
This definition follows the spec's words. -/
def spec_identity : CfgLib.ConfigItem → Str
  | .Cmd cmd => cmd
  | .CmdWithArgs _ arg1 _ => arg1
  | .Cvar cvar _ => cvar
  | .Empty => []

/-- Order the spec claims for the merged output (spec §3): by variant rank,
then byte-lexicographically on the identity string. -/
def spec_le (a b : CfgLib.ConfigItem) : Bool :=
  Nat.blt (spec_rank a) (spec_rank b) ||
    (spec_rank a == spec_rank b && str_le (spec_identity a) (spec_identity b))

/-- The emitted sequence is sorted by the spec's output order. -/
def sorted_by_spec : List CfgLib.ConfigItem → Bool
  | [] => true
  | [_] => true
  | a :: b :: rest => spec_le a b && sorted_by_spec (b :: rest)

/-- Same merge entry in the spec's sense (spec §3): same variant and equal
identity string. -/
def same_identity (a b : CfgLib.ConfigItem) : Bool :=
  spec_rank a == spec_rank b && spec_identity a == spec_identity b

/-- Some two statements of the list are the same entry in the spec's sense. -/
def has_dup_identity : List CfgLib.ConfigItem → Bool
  | [] => false
  | x :: rest => rest.any (fun y => same_identity x y) || has_dup_identity rest

/-- Statements in the scope of the round-trip claim: the command name or the
key is a valid identifier, and the quoted payload contains no `"`. -/
def round_trip_valid : ConfigItem → Bool
  | .Command name => isValidIdent name
  | .Bind key bnd => isValidIdent key && !(has_quote bnd)
  | .Cvar key val => isValidIdent key && !(has_quote val)

theorem ident_char_size {c : Char} (h : isIdentChar c = true) : charSize1 c = true := by
  simp only [isIdentChar, isAlphaRust, isDigitRust, charSize1, Bool.or_eq_true,
    Bool.and_eq_true, decide_eq_true_eq, beq_iff_eq] at h ⊢
  omega

theorem ident_start_ident {c : Char} (h : isIdentStartChar c = true) : isIdentChar c = true := by
  simp only [isIdentStartChar, isIdentChar, Bool.or_eq_true] at h ⊢
  tauto

theorem ident_char_ne_space {c : Char} (h : isIdentChar c = true) : c ≠ ' ' :=
  fun he => absurd (he ▸ h) (by decide)

theorem ident_char_ne_slash {c : Char} (h : isIdentChar c = true) : c ≠ '/' :=
  fun he => absurd (he ▸ h) (by decide)

theorem ident_char_ne_quote {c : Char} (h : isIdentChar c = true) : c ≠ '"' :=
  fun he => absurd (he ▸ h) (by decide)

theorem takeWhile_all_append (p : Char → Bool) :
    ∀ (xs ys : Str), (∀ c ∈ xs, p c = true) →
      List.takeWhile p (xs ++ ys) = xs ++ List.takeWhile p ys
  | [], _, _ => by simp
  | x :: xs, ys, h => by
    have hx : p x = true := h x (List.mem_cons_self x xs)
    simp only [List.cons_append, List.takeWhile_cons_of_pos hx]
    rw [takeWhile_all_append p xs ys (fun c hc => h c (List.mem_cons_of_mem x hc))]

theorem takeWhile_all (p : Char → Bool) (xs : Str) (h : ∀ c ∈ xs, p c = true) :
    List.takeWhile p xs = xs := by
  have := takeWhile_all_append p xs [] h
  simpa using this

theorem takeWhile_stop (p : Char → Bool) (x : Char) (xs ys : Str)
    (h : ∀ c ∈ xs, p c = true) (hx : p x = false) :
    List.takeWhile p (xs ++ (x :: ys)) = xs := by
  rw [takeWhile_all_append p xs (x :: ys) h,
    List.takeWhile_cons_of_neg (by simp [hx]), List.append_nil]

theorem lastSize1_of_all : ∀ (l : Str), (∀ c ∈ l, charSize1 c = true) → lastSize1 l = true
  | [], _ => rfl
  | [c], h => by simpa [lastSize1] using h c (List.mem_singleton.mpr rfl)
  | a :: b :: l, h => by
    rw [lastSize1]
    exact lastSize1_of_all (b :: l) (fun c hc => h c (List.mem_cons_of_mem a hc))

theorem valid_ident_all {k : Str} (hk : isValidIdent k = true) :
    ∀ c ∈ k, isIdentChar c = true := by
  cases k with
  | nil => simp [isValidIdent] at hk
  | cons c0 k0 =>
    simp only [isValidIdent, Bool.and_eq_true, List.all_eq_true] at hk
    exact hk.2

theorem has_quote_of_valid_ident {k : Str} (hk : isValidIdent k = true) :
    has_quote k = false := by
  have hall := valid_ident_all hk
  clear hk
  induction k with
  | nil => rfl
  | cons c l ih =>
    have hc : c ≠ '"' := ident_char_ne_quote (hall c (List.mem_cons_self c l))
    simp only [has_quote, Bool.or_eq_false_iff, beq_eq_false_iff_ne, ne_eq]
    exact ⟨hc, ih (fun x hx => hall x (List.mem_cons_of_mem c hx))⟩

theorem iw_cons_space (l : Str) : ignore_whitespace (' ' :: l) = ignore_whitespace l := by
  simp [ignore_whitespace]

theorem iw_cons_of_ne (c : Char) (l : Str) (h : c ≠ ' ') :
    ignore_whitespace (c :: l) = c :: l := by
  simp [ignore_whitespace, List.dropWhile_cons, h]

theorem eoc_comment (l : Str) : is_empty_or_comment ('/' :: ('/' :: l)) = true := by
  simp [is_empty_or_comment, startsComment]

theorem eoc_cons_of_ne (c : Char) (l : Str) (h : c ≠ '/') :
    is_empty_or_comment (c :: l) = false := by
  cases l <;> simp [is_empty_or_comment, startsComment, h]

theorem has_quote_all {v : Str} (hv : has_quote v = false) : ∀ x ∈ v, (x != '"') = true := by
  induction v with
  | nil => intro x hx; cases hx
  | cons c l ih =>
    simp only [has_quote, Bool.or_eq_false_iff] at hv
    intro x hx
    rcases List.mem_cons.mp hx with h | h
    · subst h; simp [bne, hv.1]
    · exact ih hv.2 x h

theorem identifier_valid_append (k : Str) (x : Char) (r : Str)
    (hk : isValidIdent k = true) (hx : isIdentChar x = false) :
    identifier (k ++ (x :: r)) = .ok (x :: r) k := by
  cases k with
  | nil => simp [isValidIdent] at hk
  | cons c0 k0 =>
    have hall : ∀ c ∈ c0 :: k0, isIdentChar c = true := valid_ident_all hk
    have hstart : isIdentStartChar c0 = true := by
      simp only [isValidIdent, Bool.and_eq_true] at hk
      exact hk.1
    have htw : List.takeWhile isIdentChar ((c0 :: k0) ++ (x :: r)) = c0 :: k0 :=
      takeWhile_stop _ _ _ _ hall hx
    have hlen : ((c0 :: k0) ++ (x :: r)).drop (c0 :: k0).length = x :: r :=
      List.drop_left _ _
    rw [List.cons_append] at htw hlen
    rw [show (c0 :: k0) ++ (x :: r) = c0 :: (k0 ++ (x :: r)) from rfl]
    rw [identifier, if_pos hstart]
    simp only [htw, hlen]
    rw [if_pos (lastSize1_of_all _ (fun c hc => ident_char_size (hall c hc)))]

theorem identifier_valid_nil (k : Str) (hk : isValidIdent k = true) :
    identifier k = .ok [] k := by
  cases k with
  | nil => simp [isValidIdent] at hk
  | cons c0 k0 =>
    have hall : ∀ c ∈ c0 :: k0, isIdentChar c = true := valid_ident_all hk
    have hstart : isIdentStartChar c0 = true := by
      simp only [isValidIdent, Bool.and_eq_true] at hk
      exact hk.1
    have htw : List.takeWhile isIdentChar (c0 :: k0) = c0 :: k0 :=
      takeWhile_all _ _ hall
    rw [identifier, if_pos hstart]
    simp only [htw, List.drop_length]
    rw [if_pos (lastSize1_of_all _ (fun c hc => ident_char_size (hall c hc)))]

theorem string_literal_quoted (v t : Str) (hv : has_quote v = false) :
    string_literal ('"' :: (v ++ ('"' :: t))) = .ok t v := by
  have htw : List.takeWhile (fun x => x != '"') (v ++ ('"' :: t)) = v :=
    takeWhile_stop _ _ _ _ (has_quote_all hv) (by simp)
  have hdrop : (v ++ ('"' :: t)).drop v.length = '"' :: t := List.drop_left _ _
  rw [string_literal, if_pos rfl]
  simp only [htw, hdrop]

theorem parse_line_split (k rest : Str) (hk : isValidIdent k = true) :
    parse_line (k ++ (' ' :: rest)) =
      if is_empty_or_comment (ignore_whitespace rest) then .ok (some (.Command k))
      else cvar_parser_next k (ignore_whitespace rest) := by
  cases k with
  | nil => simp [isValidIdent] at hk
  | cons c0 k0 =>
    have hc0 : isIdentChar c0 = true := by
      apply valid_ident_all hk
      exact List.mem_cons_self c0 k0
    have hiw : ignore_whitespace ((c0 :: k0) ++ (' ' :: rest)) = (c0 :: k0) ++ (' ' :: rest) := by
      rw [List.cons_append]
      exact iw_cons_of_ne _ _ (ident_char_ne_space hc0)
    have heoc : is_empty_or_comment ((c0 :: k0) ++ (' ' :: rest)) = false := by
      rw [List.cons_append]
      exact eoc_cons_of_ne _ _ (ident_char_ne_slash hc0)
    rw [parse_line]
    simp only [hiw, heoc, if_false, Bool.false_eq_true]
    rw [ident_parser_next, identifier_valid_append _ _ _ hk (by decide)]
    simp only [iw_cons_space]

theorem parse_line_bare (k : Str) (hk : isValidIdent k = true) :
    parse_line k = .ok (some (.Command k)) := by
  cases k with
  | nil => simp [isValidIdent] at hk
  | cons c0 k0 =>
    have hc0 : isIdentChar c0 = true := by
      apply valid_ident_all hk
      exact List.mem_cons_self c0 k0
    rw [parse_line]
    simp only [iw_cons_of_ne _ _ (ident_char_ne_space hc0),
      eoc_cons_of_ne _ _ (ident_char_ne_slash hc0), if_false, Bool.false_eq_true]
    rw [ident_parser_next, identifier_valid_nil _ hk]
    simp [is_empty_or_comment, ignore_whitespace]

theorem cvar_stage (k v t : Str) (hv : has_quote v = false) :
    cvar_parser_next k ('"' :: (v ++ ('"' :: t))) =
      if is_empty_or_comment (ignore_whitespace t) then .ok (some (.Cvar k v))
      else bind_parser_next k v (ignore_whitespace t) := by
  rw [cvar_parser_next, string_literal_quoted v t hv]

theorem bind_stage (key b t : Str) (hb : has_quote b = false) :
    bind_parser_next ("bind".toList) key ('"' :: (b ++ ('"' :: t))) =
      if is_empty_or_comment (ignore_whitespace t) then .ok (some (.Bind key b))
      else .err (.invalidEndOfLine (ignore_whitespace t)) := by
  rw [bind_parser_next, if_neg (fun h => h rfl), string_literal_quoted b t hb]

theorem bad_line_err :
    CfgLib.parse_config_line ("x x x x".toList) = .err ("x x x x".toList) := by decide

theorem process_target_nil_lookup :
    ∀ (ts : List Str) (out : List CfgLib.ConfigItem) (items : List CfgLib.ConfigItem),
      CfgLib.parse_all_lines ts = some items →
      CfgLib.process_target ts [] out = .ok (out ++ items, [])
  | [], out, items, h => by
    simp only [CfgLib.parse_all_lines, Option.some.injEq] at h
    subst h
    simp [CfgLib.process_target]
  | l :: ls, out, items, h => by
    rw [CfgLib.parse_all_lines] at h
    cases hp : CfgLib.parse_config_line l with
    | ok item =>
      rw [hp] at h
      cases hq : CfgLib.parse_all_lines ls with
      | none => rw [hq] at h; cases h
      | some its =>
        rw [hq] at h
        have h2 : item :: its = items := by simpa using h
        subst h2
        cases hko : CfgLib.key_of item with
        | none =>
          simp only [CfgLib.process_target, hp, hko]
          rw [process_target_nil_lookup ls (out ++ [item]) its hq]
          simp
        | some k =>
          simp only [CfgLib.process_target, hp, hko, CfgLib.remove_item]
          rw [process_target_nil_lookup ls (out ++ [item]) its hq]
          simp
    | err e => rw [hp] at h; cases h
    | panicked => rw [hp] at h; cases h

theorem build_lookup_ok :
    ∀ (ps : List Str) (m : List (Str × CfgLib.ConfigItem)) (pit : List CfgLib.ConfigItem),
      CfgLib.parse_all_lines ps = some pit →
      ∃ m2, CfgLib.build_lookup ps m = .ok m2
  | [], m, _, _ => ⟨m, rfl⟩
  | l :: ls, m, pit, h => by
    rw [CfgLib.parse_all_lines] at h
    cases hp : CfgLib.parse_config_line l with
    | ok item =>
      rw [hp] at h
      cases hq : CfgLib.parse_all_lines ls with
      | none => rw [hq] at h; cases h
      | some its =>
        cases hko : CfgLib.key_of item with
        | none =>
          obtain ⟨m2, hm2⟩ := build_lookup_ok ls m its hq
          exact ⟨m2, by simp only [CfgLib.build_lookup, hp, hko]; exact hm2⟩
        | some k =>
          obtain ⟨m2, hm2⟩ := build_lookup_ok ls (CfgLib.insert_item m k item) its hq
          exact ⟨m2, by simp only [CfgLib.build_lookup, hp, hko]; exact hm2⟩
    | err e => rw [hp] at h; cases h
    | panicked => rw [hp] at h; cases h

theorem build_lookup_err {b e : Str} (hb : CfgLib.parse_config_line b = .err e) :
    ∀ (ps post : List Str) (m : List (Str × CfgLib.ConfigItem))
      (pit : List CfgLib.ConfigItem),
      CfgLib.parse_all_lines ps = some pit →
      CfgLib.build_lookup (ps ++ (b :: post)) m = .err e
  | [], post, m, _, _ => by
    simp only [List.nil_append, CfgLib.build_lookup, hb]
  | l :: ls, post, m, pit, h => by
    rw [CfgLib.parse_all_lines] at h
    cases hp : CfgLib.parse_config_line l with
    | ok item =>
      rw [hp] at h
      cases hq : CfgLib.parse_all_lines ls with
      | none => rw [hq] at h; cases h
      | some its =>
        cases hko : CfgLib.key_of item with
        | none =>
          simp only [List.cons_append, CfgLib.build_lookup, hp, hko]
          exact build_lookup_err hb ls post m its hq
        | some k =>
          simp only [List.cons_append, CfgLib.build_lookup, hp, hko]
          exact build_lookup_err hb ls post (CfgLib.insert_item m k item) its hq
    | err e2 => rw [hp] at h; cases h
    | panicked => rw [hp] at h; cases h

theorem process_target_err {b e : Str} (hb : CfgLib.parse_config_line b = .err e) :
    ∀ (ps post : List Str) (m : List (Str × CfgLib.ConfigItem))
      (out : List CfgLib.ConfigItem) (pit : List CfgLib.ConfigItem),
      CfgLib.parse_all_lines ps = some pit →
      CfgLib.process_target (ps ++ (b :: post)) m out = .err e
  | [], post, m, out, _, _ => by
    simp only [List.nil_append, CfgLib.process_target, hb]
  | l :: ls, post, m, out, pit, h => by
    rw [CfgLib.parse_all_lines] at h
    cases hp : CfgLib.parse_config_line l with
    | ok item =>
      rw [hp] at h
      cases hq : CfgLib.parse_all_lines ls with
      | none => rw [hq] at h; cases h
      | some its =>
        cases hko : CfgLib.key_of item with
        | none =>
          simp only [List.cons_append, CfgLib.process_target, hp, hko]
          exact process_target_err hb ls post m (out ++ [item]) its hq
        | some k =>
          cases hrm : CfgLib.remove_item m k with
          | mk r m2 =>
            cases r with
            | none =>
              simp only [List.cons_append, CfgLib.process_target, hp, hko, hrm]
              exact process_target_err hb ls post m2 (out ++ [item]) its hq
            | some v =>
              simp only [List.cons_append, CfgLib.process_target, hp, hko, hrm]
              exact process_target_err hb ls post m2 (out ++ [v]) its hq
    | err e2 => rw [hp] at h; cases h
    | panicked => rw [hp] at h; cases h

/-- C1: the claim says the merged output is emitted sorted by the fixed total
order (Command before KeyBind before Setting, lexical by identity within a
variant).  Evaluating `lib.rs::apply_patch` at a target whose Setting line
precedes its Command line (and an empty patch) shows the code instead emits
statements in target-file order: the output keeps the Setting first, which
violates the claimed order, although `config.rs`'s `Ord` (embedded above as
`ConfigItem.cmp`) defines exactly the claimed order. -/
theorem C1_unsorted_output :
    CfgLib.apply_patch [] ["b \"1\"".toList, "a".toList] =
      .ok [CfgLib.ConfigItem.Cvar ("b".toList) ("\"1\"".toList),
        CfgLib.ConfigItem.Cmd ("a".toList)] ∧
    sorted_by_spec [CfgLib.ConfigItem.Cvar ("b".toList) ("\"1\"".toList),
        CfgLib.ConfigItem.Cmd ("a".toList)] = false := by decide

/-- C2: the claim says a patch statement replaces an existing entry exactly
when variant and identity both match, so a Command and a Setting with the
same name never replace each other.  `lib.rs::apply_patch` keys its lookup by
the name string alone: evaluating it on target `vol "9"` (a Setting) and
patch `vol` (a Command) shows the Command replaces the Setting, which is gone
from the output. -/
theorem C2_cross_variant_replacement :
    CfgLib.apply_patch ["vol".toList] ["vol \"9\"".toList] =
      .ok [CfgLib.ConfigItem.Cmd ("vol".toList)] ∧
    CfgLib.ConfigItem.Cvar ("vol".toList) ("\"9\"".toList) ∉
      [CfgLib.ConfigItem.Cmd ("vol".toList)] := by decide

/-- C3: the claim says the merge identity of a key bind is its key, so binds
with different keys are distinct entries that both survive.
`lib.rs::apply_patch` keys a three-token line by its literal command word
(`bind`): evaluating it on target `bind "K1" "B1"` and patch
`bind "K2" "B2"` shows the patch bind replaces the target bind despite the
different keys, and the `K1` entry disappears from the output. -/
theorem C3_bind_keyed_by_literal :
    CfgLib.apply_patch ["bind \"K2\" \"B2\"".toList] ["bind \"K1\" \"B1\"".toList] =
      .ok [CfgLib.ConfigItem.CmdWithArgs ("bind".toList) ("\"K2\"".toList) ("\"B2\"".toList)] ∧
    CfgLib.ConfigItem.CmdWithArgs ("bind".toList) ("\"K1\"".toList) ("\"B1\"".toList) ∉
      [CfgLib.ConfigItem.CmdWithArgs ("bind".toList) ("\"K2\"".toList) ("\"B2\"".toList)] := by decide

/-- C4 counterexample: the claim says duplicate-identity target lines collapse
to the last one, so the output has at most one entry per (variant, identity).
Evaluating `lib.rs::apply_patch` on a target with two `vol` Setting lines and
an empty patch shows both survive (and the first keeps its own payload), so
the output contains two entries with the same variant and identity. -/
theorem C4_duplicates_kept :
    CfgLib.apply_patch [] ["vol \"1\"".toList, "vol \"2\"".toList] =
      .ok [CfgLib.ConfigItem.Cvar ("vol".toList) ("\"1\"".toList),
        CfgLib.ConfigItem.Cvar ("vol".toList) ("\"2\"".toList)] ∧
    has_dup_identity [CfgLib.ConfigItem.Cvar ("vol".toList) ("\"1\"".toList),
        CfgLib.ConfigItem.Cvar ("vol".toList) ("\"2\"".toList)] = true := by decide

/-- C4 amended: `lib.rs::apply_patch` performs no target-side deduplication —
with an empty patch the output is exactly the sequence of parsed target
statements in file order, duplicates included. -/
theorem C4_no_target_dedup (ts : List Str) (items : List CfgLib.ConfigItem)
    (h : CfgLib.parse_all_lines ts = some items) :
    CfgLib.apply_patch [] ts = .ok items := by
  have hpt := process_target_nil_lookup ts [] items h
  simp only [CfgLib.apply_patch, CfgLib.build_lookup]
  rw [hpt]
  simp

/-- C4 witness: the amended statement at the duplicate-Setting target. -/
theorem C4_no_target_dedup_witness :
    CfgLib.parse_all_lines ["vol \"1\"".toList, "vol \"2\"".toList] =
      some [CfgLib.ConfigItem.Cvar ("vol".toList) ("\"1\"".toList),
        CfgLib.ConfigItem.Cvar ("vol".toList) ("\"2\"".toList)] ∧
    CfgLib.apply_patch [] ["vol \"1\"".toList, "vol \"2\"".toList] =
      .ok [CfgLib.ConfigItem.Cvar ("vol".toList) ("\"1\"".toList),
        CfgLib.ConfigItem.Cvar ("vol".toList) ("\"2\"".toList)] :=
  ⟨by decide, C4_no_target_dedup _ _ (by decide)⟩

/-- C5 counterexample: the claim says the reported error carries the failing
line's 1-based line number.  The same malformed line at target position 1 and
at target position 2 produces the very same error value (which is just the
underlying parse error for the trimmed line text), so the error cannot carry
the line number. -/
theorem C5_error_position_independent :
    CfgLib.apply_patch [] ["a".toList, "x x x x".toList] =
      CfgLib.apply_patch [] ["x x x x".toList] ∧
    CfgLib.apply_patch [] ["x x x x".toList] = .err ("x x x x".toList) := by decide

/-- C5 amended: a parse failure on any patch or target line makes the whole
merge fail with the underlying parse error (without a line number), before
any output is produced: with well-formed lines before the bad line, the
result is the bad line's error — whether the bad line sits in the patch
(first conjunct, for every target) or in the target (second conjunct, for
every well-formed patch). -/
theorem C5_abort_without_line_number (ps pre post ts : List Str)
    (pit preit : List CfgLib.ConfigItem)
    (h1 : CfgLib.parse_all_lines ps = some pit)
    (h2 : CfgLib.parse_all_lines pre = some preit) :
    CfgLib.apply_patch (pre ++ ("x x x x".toList :: post)) ts = .err ("x x x x".toList) ∧
    CfgLib.apply_patch ps (pre ++ ("x x x x".toList :: post)) = .err ("x x x x".toList) := by
  constructor
  · simp only [CfgLib.apply_patch]
    rw [build_lookup_err bad_line_err pre post [] preit h2]
  · obtain ⟨m2, hm2⟩ := build_lookup_ok ps [] pit h1
    simp only [CfgLib.apply_patch, hm2]
    rw [process_target_err bad_line_err pre post m2 [] preit h2]

/-- C5 witness: the amended statement at a concrete patch, target and
surrounding well-formed lines. -/
theorem C5_abort_without_line_number_witness :
    CfgLib.parse_all_lines ["a".toList] = some [CfgLib.ConfigItem.Cmd ("a".toList)] ∧
    CfgLib.parse_all_lines ["b \"1\"".toList] =
      some [CfgLib.ConfigItem.Cvar ("b".toList) ("\"1\"".toList)] ∧
    CfgLib.apply_patch (["b \"1\"".toList] ++ ("x x x x".toList :: ["c".toList]))
      ["d".toList] = .err ("x x x x".toList) ∧
    CfgLib.apply_patch ["a".toList] (["b \"1\"".toList] ++ ("x x x x".toList :: ["c".toList])) =
      .err ("x x x x".toList) := by
  have h := C5_abort_without_line_number ["a".toList] ["b \"1\"".toList] ["c".toList]
    ["d".toList] [CfgLib.ConfigItem.Cmd ("a".toList)]
    [CfgLib.ConfigItem.Cvar ("b".toList) ("\"1\"".toList)] (by decide) (by decide)
  exact ⟨by decide, by decide, h.1, h.2⟩

/-- C6: a `//` inside a quoted string is content, not a comment: for every
valid identifier `k` and quote-free value `v` that contains `//`, the line
`k "v"` parses to the Setting `Cvar k v`, and appending an unquoted comment
` //…` after the closing quote leaves the parsed statement unchanged. -/
theorem C6_comment_detection_quote_aware (k v c : Str)
    (hk : isValidIdent k = true) (hv : has_quote v = false)
    (_hm : has_comment_marker v = true) :
    parse_line (k ++ (' ' :: ('"' :: (v ++ ['"'])))) = .ok (some (.Cvar k v)) ∧
    parse_line (k ++ (' ' :: ('"' :: (v ++ ('"' :: (' ' :: ('/' :: ('/' :: c)))))))) =
      .ok (some (.Cvar k v)) := by
  constructor
  · rw [parse_line_split k ('"' :: (v ++ ['"'])) hk,
      iw_cons_of_ne _ _ (by decide), eoc_cons_of_ne _ _ (by decide),
      if_neg Bool.false_ne_true, cvar_stage k v [] hv]
    rfl
  · rw [parse_line_split k ('"' :: (v ++ ('"' :: (' ' :: ('/' :: ('/' :: c)))))) hk,
      iw_cons_of_ne _ _ (by decide), eoc_cons_of_ne _ _ (by decide),
      if_neg Bool.false_ne_true, cvar_stage k v (' ' :: ('/' :: ('/' :: c))) hv,
      iw_cons_space, iw_cons_of_ne _ _ (by decide), eoc_comment, if_pos rfl]

/-- C6 witness: the statement at `volume "a//b"` and `volume "a//b" // loud`. -/
theorem C6_comment_detection_quote_aware_witness :
    isValidIdent ("volume".toList) = true ∧
    has_quote ("a//b".toList) = false ∧
    has_comment_marker ("a//b".toList) = true ∧
    parse_line ("volume \"a//b\"".toList) =
      .ok (some (.Cvar ("volume".toList) ("a//b".toList))) ∧
    parse_line ("volume \"a//b\" // loud".toList) =
      .ok (some (.Cvar ("volume".toList) ("a//b".toList))) := by
  have h := C6_comment_detection_quote_aware ("volume".toList) ("a//b".toList)
    ("loud".toList) (by decide) (by decide) (by decide)
  exact ⟨by decide, by decide, by decide, h.1, h.2⟩

/-- C7: a line of an identifier followed by two quoted arguments parses only
when the identifier is exactly `bind`, yielding `Bind arg1 arg2`; for every
other valid identifier the same shape fails with an error of the
`UnexpectedEndOfLine` kind of the spec §7 taxonomy (the source's
`expected command 'bind'` error). -/
theorem C7_bind_required_for_two_args (idn a b : Str)
    (hid : isValidIdent idn = true) (ha : has_quote a = false)
    (hb : has_quote b = false) :
    parse_line ("bind".toList ++
        (' ' :: ('"' :: (a ++ ('"' :: (' ' :: ('"' :: (b ++ ['"'])))))))) =
      .ok (some (.Bind a b)) ∧
    (idn ≠ "bind".toList →
      ∃ e, parse_line (idn ++
          (' ' :: ('"' :: (a ++ ('"' :: (' ' :: ('"' :: (b ++ ['"'])))))))) = .err e ∧
        e.kind = ErrKind.UnexpectedEndOfLine) := by
  constructor
  · rw [parse_line_split _ _ (by decide),
      iw_cons_of_ne _ _ (by decide), eoc_cons_of_ne _ _ (by decide),
      if_neg Bool.false_ne_true,
      cvar_stage _ a (' ' :: ('"' :: (b ++ ['"']))) ha,
      iw_cons_space, iw_cons_of_ne _ _ (by decide), eoc_cons_of_ne _ _ (by decide),
      if_neg Bool.false_ne_true, bind_stage a b [] hb]
    rfl
  · intro hne
    refine ⟨.expectedBindCommand idn ('"' :: (b ++ ['"'])), ?_, rfl⟩
    rw [parse_line_split _ _ hid,
      iw_cons_of_ne _ _ (by decide), eoc_cons_of_ne _ _ (by decide),
      if_neg Bool.false_ne_true,
      cvar_stage _ a (' ' :: ('"' :: (b ++ ['"']))) ha,
      iw_cons_space, iw_cons_of_ne _ _ (by decide), eoc_cons_of_ne _ _ (by decide),
      if_neg Bool.false_ne_true, bind_parser_next, if_pos hne]

/-- C7 witness: the statement at `bind "a" "b"` and `someword "a" "b"`. -/
theorem C7_bind_required_for_two_args_witness :
    isValidIdent ("someword".toList) = true ∧
    parse_line ("bind \"a\" \"b\"".toList) =
      .ok (some (.Bind ("a".toList) ("b".toList))) ∧
    ∃ e, parse_line ("someword \"a\" \"b\"".toList) = .err e ∧
      e.kind = ErrKind.UnexpectedEndOfLine := by
  have h := C7_bind_required_for_two_args ("someword".toList) ("a".toList)
    ("b".toList) (by decide) (by decide) (by decide)
  exact ⟨by decide, h.1, h.2 (by decide)⟩

/-- C8: round-trip — for every statement whose name or key is a valid
identifier and whose quoted payload contains no `"`, serializing it to its
canonical line (`config.rs::write_string` without the trailing newline) and
parsing that line back with `parser.rs::parse_line` yields the identical
statement, payload included. -/
theorem C8_round_trip (item : ConfigItem) (h : round_trip_valid item = true) :
    parse_line item.write_line = .ok (some item) := by
  cases item with
  | Command name =>
    exact parse_line_bare name (by simpa [round_trip_valid] using h)
  | Cvar key val =>
    simp only [round_trip_valid, Bool.and_eq_true, Bool.not_eq_true'] at h
    rw [ConfigItem.write_line, parse_line_split _ _ h.1,
      iw_cons_of_ne _ _ (by decide), eoc_cons_of_ne _ _ (by decide),
      if_neg Bool.false_ne_true, cvar_stage key val [] h.2]
    rfl
  | Bind key bnd =>
    simp only [round_trip_valid, Bool.and_eq_true, Bool.not_eq_true'] at h
    rw [ConfigItem.write_line, parse_line_split _ _ (by decide),
      iw_cons_of_ne _ _ (by decide), eoc_cons_of_ne _ _ (by decide),
      if_neg Bool.false_ne_true,
      cvar_stage _ key (' ' :: ('"' :: (bnd ++ ['"'])))
        (has_quote_of_valid_ident h.1),
      iw_cons_space, iw_cons_of_ne _ _ (by decide), eoc_cons_of_ne _ _ (by decide),
      if_neg Bool.false_ne_true, bind_stage key bnd [] h.2]
    rfl

/-- C8 witness: the round trip at the key bind `bind "x" "jump"`. -/
theorem C8_round_trip_witness :
    round_trip_valid (ConfigItem.Bind ("x".toList) ("jump".toList)) = true ∧
    parse_line ((ConfigItem.Bind ("x".toList) ("jump".toList)).write_line) =
      .ok (some (.Bind ("x".toList) ("jump".toList))) :=
  ⟨by decide, C8_round_trip _ (by decide)⟩

/-- C9: the claim says the line parser returns a value on every input,
including a lone trailing `/`, and never slices past the end of the input.
`lib.rs::parse_config_line` indexes `&line[index + 1 .. index + 2]` to look
for `//`; on the line `a /` that slice starts past the end of the string and
the function panics instead of returning. -/
theorem C9_trailing_slash_panics :
    CfgLib.parse_config_line ("a /".toList) = .panicked := by decide

/-- C10: the claim says hashing is a congruence for the identity equality.
The two binds `Bind "k" "b1"` and `Bind "k" "b2"` are equal under
`config.rs`'s `PartialEq` (same key), yet `Hash` feeds their different
binding payloads to the hasher, so a hasher that records its input gives
them different hash values: the field sequences differ. -/
theorem C10_hash_not_congruent :
    ConfigItem.eq (.Bind ("k".toList) ("b1".toList)) (.Bind ("k".toList) ("b2".toList)) = true ∧
    ConfigItem.hash_fields (.Bind ("k".toList) ("b1".toList)) ≠
      ConfigItem.hash_fields (.Bind ("k".toList) ("b2".toList)) := by decide
